import Mathlib

/-!
Shallow embedding of `symphonia-core/src/io/media_source_stream.rs`
(`MediaSourceStream`), the buffered, rewindable stream engine of the
repository, together with proofs about its read, rewind, seek and refill
operations.

Machine integers (`u64`, `usize`) are modelled as `Nat`.  Subtraction is
the truncated `Nat` subtraction except where the Rust code can actually
underflow on inputs we exercise: there the wrap-around of release-mode
Rust is made explicit via `subWrap64` (debug-mode Rust would panic at the
same spot).  The backing buffer `buf: Box<[u8]>` is modelled as a total
function `Nat → Nat`; all its writes happen through `writeSpan`.  The
inner reader `Box<dyn MediaSource>` is external to the repository; it is
modelled from the Source Adapter contract of the specification (§6): a
scripted provider whose read calls transfer up to the requested amount,
with 0 signalling end of data, and which may report a transient
interrupted condition or a fatal error on a call.
-/

set_option maxRecDepth 100000

namespace MediaSourceStreamModel

/-- `MediaSourceStream::MAX_CAPACITY`: 32 * 1024. -/
def maxCapacity : Nat := 32 * 1024

/-- `MediaSourceStream::INIT_CAPACITY`: 1024. -/
def initCapacity : Nat := 1024

/-- Modulus of 64-bit machine arithmetic (`u64` / 64-bit `usize`). -/
def u64Mod : Nat := 2 ^ 64

/-- Wrapping 64-bit subtraction, the release-mode semantics of `a - b` on
`u64`/`usize` when `b > a` (debug-mode Rust panics instead).  For
`a < 2^64` this is exactly `(a - b) mod 2^64`. -/
def subWrap64 (a b : Nat) : Nat := (a + u64Mod - b % u64Mod) % u64Mod

/-- `struct Partition { base_pos: u64, len: usize, capacity: usize }`. -/
structure Partition where
  basePos : Nat
  len : Nat
  capacity : Nat
  deriving DecidableEq, Repr

/-- One response of the inner `MediaSource` to a single `read` call:
either it transfers up to `n` bytes, or the call is interrupted
(`ErrorKind::Interrupted`), or it fails with some other I/O error. -/
inductive SrcEvent where
  | bytes (n : Nat)
  | interrupted
  | ioError (code : Nat)
  deriving DecidableEq, Repr

/-- The `std::io` error kinds distinguished by the code under test. -/
inductive IOErr where
  | unexpectedEof
  | interrupted
  | other (code : Nat)
  | notSeekable
  deriving DecidableEq, Repr

/-- Modelled from the spec: the external Source Adapter (§6), i.e. the
`Box<dyn MediaSource>` inner reader, which is not part of this
repository.  `data` gives the byte at each absolute offset of the
underlying medium, `pos` is the adapter's own read position, `script`
lists the outcome of each successive `read` call (an empty script means
every further call returns 0 = end of data), `seekable` is the
`is_seekable` capability, `total` its length, and `reqs` is a ghost log
of the sizes of the destination slices passed to `read`. -/
structure Inner where
  data : Nat → Nat
  pos : Nat
  script : List SrcEvent
  seekable : Bool
  total : Nat
  reqs : List Nat

/-- One `inner.read(&mut dst)` call with `dst.len() = amount`: returns the
count transferred (0 at end of data) or an error, and the updated
adapter.  Bytes are transferred from `data` starting at the adapter's
current `pos`; the caller copies them into its own buffer. -/
def innerRead (ins : Inner) (amount : Nat) : (Except IOErr Nat) × Inner :=
  match ins.script with
  | [] => (.ok 0, { ins with reqs := ins.reqs ++ [amount] })
  | .bytes k :: rest =>
      let cnt := min k amount
      (.ok cnt, { ins with pos := ins.pos + cnt, script := rest, reqs := ins.reqs ++ [amount] })
  | .interrupted :: rest =>
      (.error .interrupted, { ins with script := rest, reqs := ins.reqs ++ [amount] })
  | .ioError c :: rest =>
      (.error (.other c), { ins with script := rest, reqs := ins.reqs ++ [amount] })

/-- Copy `cnt` bytes of `src` (starting at `srcPos`) into `buf` at
destination index `dst`; models filling `&mut buf[dst..dst + cnt]`. -/
def writeSpan (buf : Nat → Nat) (dst : Nat) (src : Nat → Nat) (srcPos cnt : Nat) : Nat → Nat :=
  fun j => if dst ≤ j ∧ j < dst + cnt then src (srcPos + (j - dst)) else buf j

/-- The state of `MediaSourceStream` (minus the inner reader, which is
threaded separately): the 2 * MAX_CAPACITY byte backing buffer, the
read boundaries `pos`/`end_pos` into it, the current read-ahead
capacity, the active partition index and the two partitions. -/
structure MSS where
  buf : Nat → Nat
  pos : Nat
  endPos : Nat
  curCapacity : Nat
  partIdx : Nat
  part0 : Partition
  part1 : Partition

/-- `self.part[i]` for `i ∈ {0, 1}`. -/
def MSS.partAt (s : MSS) (i : Nat) : Partition :=
  if i = 0 then s.part0 else s.part1

/-- `self.part[i] = p` for `i ∈ {0, 1}`. -/
def MSS.withPart (s : MSS) (i : Nat) (p : Partition) : MSS :=
  if i = 0 then { s with part0 := p } else { s with part1 := p }

/-- `MediaSourceStream::new`: zeroed buffer, both partitions at base 0
with length 0 and INIT_CAPACITY. -/
def freshMSS : MSS :=
  { buf := fun _ => 0
    pos := 0
    endPos := 0
    curCapacity := initCapacity
    partIdx := 0
    part0 := { basePos := 0, len := 0, capacity := initCapacity }
    part1 := { basePos := 0, len := 0, capacity := initCapacity } }

/-- `ByteStream::pos` for `MediaSourceStream` (the absolute stream
position): `part[idx].base_pos + part[idx].len - (end_pos - pos)`. -/
def MSS.absPos (s : MSS) : Nat :=
  let idx := s.partIdx &&& 1
  (s.partAt idx).basePos + (s.partAt idx).len - (s.endPos - s.pos)

/-- `MediaSourceStream::inner_pos`: the maximum of the two partitions'
end offsets. -/
def innerPosOf (s : MSS) : Nat :=
  max (s.part0.basePos + s.part0.len) (s.part1.basePos + s.part1.len)

/-- `MediaSourceStream::buffered_bytes`. -/
def bufferedBytes (s : MSS) : Nat := innerPosOf s - s.absPos

/-- `MediaSourceStream::rewindable_bytes`. -/
def rewindableBytes (s : MSS) : Nat :=
  s.absPos - min s.part0.basePos s.part1.basePos

/-- `MediaSourceStream::invalidate(base_pos)`. -/
def invalidate (s : MSS) (basePos : Nat) : MSS :=
  { s with
    pos := 0
    endPos := 0
    curCapacity := initCapacity
    partIdx := 0
    part0 := { basePos := basePos, len := 0, capacity := initCapacity }
    part1 := { basePos := basePos, len := 0, capacity := initCapacity } }

/-- `MediaSourceStream::rewind(rewind_len)`.  Returns the value returned
by the Rust function together with the updated state.  The two
subtractions that can underflow on `u64`/`usize` (`self.pos() -
rewind_len as u64` and `self.pos -= rewind_len`) use the explicit
wrapping semantics `subWrap64`. -/
def rewind (s : MSS) (rewindLen : Nat) : Nat × MSS :=
  let curIdx := s.partIdx &&& 1
  let altIdx := curIdx ^^^ 1
  let targetPos := subWrap64 s.absPos rewindLen
  if (s.partAt curIdx).basePos ≤ targetPos then
    (rewindLen, { s with pos := subWrap64 s.pos rewindLen })
  else if (s.partAt altIdx).basePos ≤ targetPos then
    let npos := altIdx * maxCapacity + (targetPos - (s.partAt altIdx).basePos)
    (rewindLen,
      { s with
        partIdx := s.partIdx ^^^ 1
        pos := npos
        endPos := npos + (s.partAt altIdx).len })
  else
    (0, s)

/-- `MediaSourceStream::fetch_buffer`.  The returned unread slice is
`buf[pos..end_pos]` of the returned state, so only `Except IOErr Unit`
is carried explicitly.  On `Err` from `inner.read` (including an
interrupted condition) the `?` operator propagates the error before any
state field is updated. -/
def fetchBuffer (s : MSS) (ins : Inner) : (Except IOErr Unit) × MSS × Inner :=
  if s.pos ≥ s.endPos then
    let curIdx := s.partIdx &&& 1
    let altIdx := curIdx ^^^ 1
    if (s.partAt curIdx).basePos < (s.partAt altIdx).basePos then
      -- Catch-up after a rewind: swap back to the newer partition, no I/O.
      let npos := altIdx * maxCapacity
      (.ok (),
        { s with
          pos := npos
          endPos := npos + (s.partAt altIdx).len
          partIdx := s.partIdx ^^^ 1 }, ins)
    else if (s.partAt curIdx).len < (s.partAt curIdx).capacity then
      -- Fill the active partition up to its own capacity, in place.
      let amount := (s.partAt curIdx).capacity - (s.partAt curIdx).len
      match innerRead ins amount with
      | (.error e, ins') => (.error e, s, ins')
      | (.ok len, ins') =>
          let s1 := { s with buf := writeSpan s.buf s.pos ins.data ins.pos len }
          let s2 := s1.withPart curIdx
            { s.partAt curIdx with len := (s.partAt curIdx).len + len }
          (.ok (), { s2 with endPos := s.endPos + len }, ins')
    else
      -- Full fill: grow capacity (cur_capacity << 1, capped) and read into
      -- the alternate half.
      let capacity := min (2 * s.curCapacity) maxCapacity
      let npos := altIdx * maxCapacity
      match innerRead ins capacity with
      | (.error e, ins') => (.error e, s, ins')
      | (.ok len, ins') =>
          let s1 := { s with buf := writeSpan s.buf npos ins.data ins.pos len }
          let s2 := s1.withPart altIdx
            { basePos := (s.partAt curIdx).basePos + (s.partAt curIdx).len
              len := len
              capacity := s.curCapacity }
          (.ok (),
            { s2 with
              partIdx := s.partIdx ^^^ 1
              curCapacity := capacity
              pos := npos
              endPos := npos + len }, ins')
  else
    (.ok (), s, ins)

/-- `MediaSourceStream::fetch_buffer_or_eof`: fetch, then end-of-stream
error if the readable slice is empty. -/
def fetchBufferOrEof (s : MSS) (ins : Inner) : (Except IOErr Unit) × MSS × Inner :=
  match fetchBuffer s ins with
  | (.error e, s', ins') => (.error e, s', ins')
  | (.ok _, s', ins') =>
      if s'.endPos - s'.pos = 0 then (.error .unexpectedEof, s', ins')
      else (.ok (), s', ins')

/-- `ByteStream::read_byte` for `MediaSourceStream`: replenish if fewer
than one byte is available, then serve `buf[pos]` and advance `pos` by
one (the Rust code increments first and reads `buf[self.pos - 1]`). -/
def readByte (s : MSS) (ins : Inner) : (Except IOErr Nat) × MSS × Inner :=
  if s.endPos - s.pos < 1 then
    match fetchBufferOrEof s ins with
    | (.error e, s', ins') => (.error e, s', ins')
    | (.ok _, s', ins') => (.ok (s'.buf s'.pos), { s' with pos := s'.pos + 1 }, ins')
  else
    (.ok (s.buf s.pos), { s with pos := s.pos + 1 }, ins)

/-- One iteration of the slow-path `for byte in &mut bytes` loop shared by
`read_double_bytes` / `read_triple_bytes` / `read_quad_bytes`:
replenish if `pos >= end_pos`, then serve `buf[pos]` and advance. -/
def slowStep (s : MSS) (ins : Inner) : (Except IOErr Nat) × MSS × Inner :=
  if s.pos ≥ s.endPos then
    match fetchBufferOrEof s ins with
    | (.error e, s', ins') => (.error e, s', ins')
    | (.ok _, s', ins') => (.ok (s'.buf s'.pos), { s' with pos := s'.pos + 1 }, ins')
  else
    (.ok (s.buf s.pos), { s with pos := s.pos + 1 }, ins)

/-- The slow path of the fixed-width reads: `n` iterations of `slowStep`,
collecting the bytes in read order, propagating the first error. -/
def slowRead : Nat → MSS → Inner → (Except IOErr (List Nat)) × MSS × Inner
  | 0, s, ins => (.ok [], s, ins)
  | n + 1, s, ins =>
      match slowStep s ins with
      | (.error e, s', ins') => (.error e, s', ins')
      | (.ok b, s', ins') =>
          match slowRead n s' ins' with
          | (.ok bs, s2, ins2) => (.ok (b :: bs), s2, ins2)
          | (.error e, s2, ins2) => (.error e, s2, ins2)

/-- `n` sequential `read_byte` calls, collecting the bytes in read order,
propagating the first error.  This is the reference behaviour the
fixed-width reads are compared against. -/
def readBytesSeq : Nat → MSS → Inner → (Except IOErr (List Nat)) × MSS × Inner
  | 0, s, ins => (.ok [], s, ins)
  | n + 1, s, ins =>
      match readByte s ins with
      | (.error e, s', ins') => (.error e, s', ins')
      | (.ok b, s', ins') =>
          match readBytesSeq n s' ins' with
          | (.ok bs, s2, ins2) => (.ok (b :: bs), s2, ins2)
          | (.error e, s2, ins2) => (.error e, s2, ins2)

/-- `ByteStream::read_double_bytes`: fast path copies two contiguous
bytes when at least two are buffered, otherwise the slow path. -/
def readDoubleBytes (s : MSS) (ins : Inner) : (Except IOErr (List Nat)) × MSS × Inner :=
  if 2 ≤ s.endPos - s.pos then
    (.ok ((List.range 2).map fun i => s.buf (s.pos + i)), { s with pos := s.pos + 2 }, ins)
  else
    slowRead 2 s ins

/-- `ByteStream::read_triple_bytes`. -/
def readTripleBytes (s : MSS) (ins : Inner) : (Except IOErr (List Nat)) × MSS × Inner :=
  if 3 ≤ s.endPos - s.pos then
    (.ok ((List.range 3).map fun i => s.buf (s.pos + i)), { s with pos := s.pos + 3 }, ins)
  else
    slowRead 3 s ins

/-- `ByteStream::read_quad_bytes`. -/
def readQuadBytes (s : MSS) (ins : Inner) : (Except IOErr (List Nat)) × MSS × Inner :=
  if 4 ≤ s.endPos - s.pos then
    (.ok ((List.range 4).map fun i => s.buf (s.pos + i)), { s with pos := s.pos + 4 }, ins)
  else
    slowRead 4 s ins

/-- The `while !rem.is_empty()` loop of `io::Read::read` for
`MediaSourceStream`: fetch the readable slice, copy
`min(slice.len, rem)` bytes out of it, advance `pos`, and stop on a
zero-byte copy.  The bytes copied to the caller's buffer are collected
in the returned list.  The slice-to-slice copy itself cannot fail, so
the `ErrorKind::Interrupted` match arm of the Rust loop is dead code and
has no counterpart here; errors from `fetch_buffer` exit via `?`.
`fuel` bounds the recursion; every recursive call copies at least one
byte, so `fuel = rem` suffices. -/
def readLoop : Nat → MSS → Inner → Nat → (Except IOErr Unit) × List Nat × MSS × Inner
  | 0, s, ins, _ => (.ok (), [], s, ins)
  | fuel + 1, s, ins, rem =>
      if rem = 0 then (.ok (), [], s, ins)
      else
        match fetchBuffer s ins with
        | (.error e, s', ins') => (.error e, [], s', ins')
        | (.ok _, s', ins') =>
            let avail := s'.endPos - s'.pos
            let count := min avail rem
            if count = 0 then (.ok (), [], s', ins')
            else
              let chunk := (List.range count).map fun i => s'.buf (s'.pos + i)
              match readLoop fuel { s' with pos := s'.pos + count } ins' (rem - count) with
              | (r, rest, s2, ins2) => (r, chunk ++ rest, s2, ins2)

/-- `io::Read::read` for `MediaSourceStream` (also `ByteStream::read_buf`):
run the copy loop, then report end of stream if zero bytes were read
although at least one was requested; otherwise return the bytes
actually transferred (whose number is the Rust return value). -/
def mssRead (s : MSS) (ins : Inner) (n : Nat) : (Except IOErr (List Nat)) × MSS × Inner :=
  match readLoop n s ins n with
  | (.error e, _, s', ins') => (.error e, s', ins')
  | (.ok _, out, s', ins') =>
      if out.length = 0 ∧ 0 < n then (.error .unexpectedEof, s', ins')
      else (.ok out, s', ins')

/-- The default `std::io::Read::read_exact` loop, which
`ByteStream::read_buf_exact` delegates to: repeatedly `read` into the
remaining part of the destination; `Ok(0)` breaks (reported as
end-of-stream because the destination is not yet full), an interrupted
error is retried, any other error propagates.  `k` accumulates the
number of bytes delivered so far.  `fuel` bounds the recursion; every
recursive call either delivers a byte or consumes a script event. -/
def readExactLoop : Nat → MSS → Inner → Nat → Nat → (Except IOErr Unit) × Nat × MSS × Inner
  | 0, s, ins, _, k => (.ok (), k, s, ins)
  | fuel + 1, s, ins, rem, k =>
      if rem = 0 then (.ok (), k, s, ins)
      else
        match mssRead s ins rem with
        | (.ok bs, s', ins') =>
            if bs.length = 0 then (.error .unexpectedEof, k, s', ins')
            else readExactLoop fuel s' ins' (rem - bs.length) (k + bs.length)
        | (.error .interrupted, s', ins') => readExactLoop fuel s' ins' rem k
        | (.error e, s', ins') => (.error e, k, s', ins')

/-- `ByteStream::read_buf_exact` (via `io::Read::read_exact`): returns
the outcome, the number of bytes delivered, and the final state. -/
def readBufExact (s : MSS) (ins : Inner) (n : Nat) : (Except IOErr Unit) × Nat × MSS × Inner :=
  readExactLoop (n + ins.script.length + 1) s ins n 0

/-- The `while count > 0` loop of `ByteStream::ignore_bytes`: replenish
(end-of-stream if empty), then discard up to the available amount. -/
def ignoreLoop : Nat → MSS → Inner → Nat → (Except IOErr Unit) × MSS × Inner
  | 0, s, ins, _ => (.ok (), s, ins)
  | fuel + 1, s, ins, count =>
      if count = 0 then (.ok (), s, ins)
      else
        match fetchBufferOrEof s ins with
        | (.error e, s', ins') => (.error e, s', ins')
        | (.ok _, s', ins') =>
            let d := min (s'.endPos - s'.pos) count
            ignoreLoop fuel { s' with pos := s'.pos + d } ins' (count - d)

/-- `ByteStream::ignore_bytes(count)`. -/
def ignoreBytes (s : MSS) (ins : Inner) (count : Nat) : (Except IOErr Unit) × MSS × Inner :=
  ignoreLoop count s ins count

/-- `std::io::SeekFrom`. -/
inductive SeekFrom where
  | start (p : Nat)
  | current (d : Int)
  | onEnd (d : Int)

/-- Modelled from the spec: the optional seek of the Source Adapter
(§6), i.e. `inner.seek`.  A non-seekable source fails; otherwise the
adapter moves to the requested absolute offset and returns it. -/
def innerSeek (ins : Inner) (f : SeekFrom) : (Except IOErr Nat) × Inner :=
  if ins.seekable then
    match f with
    | .start p => (.ok p, { ins with pos := p })
    | .current d =>
        let np := (ins.pos : Int) + d
        if np < 0 then (.error (.other 0), ins)
        else (.ok np.toNat, { ins with pos := np.toNat })
    | .onEnd d =>
        let np := (ins.total : Int) + d
        if np < 0 then (.error (.other 0), ins)
        else (.ok np.toNat, { ins with pos := np.toNat })
  else
    (.error .notSeekable, ins)

/-- `io::Seek::seek` for `MediaSourceStream`: a zero-delta relative
request returns `pos()` with no further effect; a nonzero relative
request is compensated by `buffered_bytes()` and forwarded; anything
else is forwarded as-is.  On success the stream is invalidated at the
returned position. -/
def mssSeek (s : MSS) (ins : Inner) (f : SeekFrom) : (Except IOErr Nat) × MSS × Inner :=
  match f with
  | .current 0 => (.ok s.absPos, s, ins)
  | .current d =>
      let delta := d - (bufferedBytes s : Int)
      match innerSeek ins (.current delta) with
      | (.ok p, ins') => (.ok p, invalidate s p, ins')
      | (.error e, ins') => (.error e, s, ins')
  | f =>
      match innerSeek ins f with
      | (.ok p, ins') => (.ok p, invalidate s p, ins')
      | (.error e, ins') => (.error e, s, ins')

/-- Extract the byte list of a successful read result (empty on error). -/
def okBytesOf : Except IOErr (List Nat) → List Nat
  | .ok bs => bs
  | .error _ => []

/-- A source event that transfers a positive number of bytes. -/
def eventOkB : SrcEvent → Bool
  | .bytes k => decide (0 < k)
  | _ => false

/-- An honest source: every scripted response transfers a positive number
of bytes, so the source neither errors nor reports end of data before
its script is exhausted (per the Source Adapter contract, a read
returning 0 signals end of data). -/
abbrev honest (ins : Inner) : Prop := ∀ e ∈ ins.script, eventOkB e = true

/-- Structural well-formedness of a stream state.  `freshMSS` and every
state produced from a well-formed state by `fetch_buffer` or by
consuming buffered bytes satisfies it (proved below); the rewind
operation does not always preserve it, which is exactly the defect
exhibited for claims C1 and C10. -/
abbrev WF (s : MSS) : Prop :=
  s.partIdx ≤ 1 ∧
  s.endPos = (s.partIdx &&& 1) * maxCapacity + (s.partAt (s.partIdx &&& 1)).len ∧
  (s.partIdx &&& 1) * maxCapacity ≤ s.pos ∧
  s.pos ≤ s.endPos ∧
  (s.partAt (s.partIdx &&& 1)).len ≤ maxCapacity ∧
  (s.partAt ((s.partIdx &&& 1) ^^^ 1)).len ≤ maxCapacity ∧
  (s.partAt (s.partIdx &&& 1)).capacity ≤ maxCapacity ∧
  (s.partAt ((s.partIdx &&& 1) ^^^ 1)).capacity ≤ maxCapacity ∧
  0 < s.curCapacity ∧
  s.curCapacity ≤ maxCapacity ∧
  ((s.partAt (s.partIdx &&& 1)).basePos < (s.partAt ((s.partIdx &&& 1) ^^^ 1)).basePos →
    (s.partAt ((s.partIdx &&& 1) ^^^ 1)).basePos
      = (s.partAt (s.partIdx &&& 1)).basePos + (s.partAt (s.partIdx &&& 1)).len ∧
    0 < (s.partAt ((s.partIdx &&& 1) ^^^ 1)).len) ∧
  ((s.partAt ((s.partIdx &&& 1) ^^^ 1)).basePos ≤ (s.partAt (s.partIdx &&& 1)).basePos →
    (s.partAt (s.partIdx &&& 1)).basePos
      = (s.partAt ((s.partIdx &&& 1) ^^^ 1)).basePos + (s.partAt ((s.partIdx &&& 1) ^^^ 1)).len)

/-- The successive values of `cur_capacity` over pure sequential reading:
each full-fill refill requests the next value of this sequence and
stores it as the new `cur_capacity`. -/
def growthSeq : Nat → Nat
  | 0 => initCapacity
  | i + 1 => min (2 * growthSeq i) maxCapacity

/-! Concrete traces used to evaluate the code at failing inputs, and
concrete instances used by the witnesses. -/

/-- A 200000-byte source of 7s that always serves a full read request. -/
def c1Ins : Inner :=
  { data := fun _ => 7, pos := 0, script := [.bytes 100000, .bytes 100000]
    seekable := true, total := 0, reqs := [] }

/-- C1 trace, step 1: skip the first 924 bytes of the stream. -/
def c1A : (Except IOErr Unit) × MSS × Inner := ignoreBytes freshMSS c1Ins 924

/-- C1 trace, step 2: read 200 bytes (stream offsets 924..1124); the
second half of this read triggers a full-fill refill into partition 1. -/
def c1B : (Except IOErr (List Nat)) × MSS × Inner := mssRead c1A.2.1 c1A.2.2 200

/-- C1 trace, step 3: rewind those 200 bytes; the target offset 924 lies
strictly inside the previously active partition 0. -/
def c1C : Nat × MSS := rewind c1B.2.1 200

/-- C1 trace, step 4: re-read 200 bytes after the rewind. -/
def c1D : (Except IOErr (List Nat)) × MSS × Inner := mssRead c1C.2 c1B.2.2 200

/-- A source whose first read attempt is interrupted and whose second
serves bytes of value 7. -/
def c4Ins : Inner :=
  { data := fun _ => 7, pos := 0, script := [.interrupted, .bytes 100000]
    seekable := true, total := 0, reqs := [] }

/-- A large always-full source for the C10 trace. -/
def c10Ins : Inner :=
  { data := fun _ => 0, pos := 0, script := List.replicate 7 (SrcEvent.bytes 100000)
    seekable := true, total := 0, reqs := [] }

/-- C10 trace, step 1: skip 64513 bytes; this runs the capacity doubling
1024, 2048, 4096, 8192, 16384, 32768, 32768 and leaves partition 1
holding 32768 bytes at base 31744 and active partition 0 holding 32768
bytes at base 64512, with one byte consumed. -/
def c10A : (Except IOErr Unit) × MSS × Inner := ignoreBytes freshMSS c10Ins 64513

/-- C10 trace, step 2: rewind 32768 bytes, to offset 31745, one byte past
the base of the retained partition 1. -/
def c10B : Nat × MSS := rewind c10A.2.1 32768

/-- The stream state after reading the first 1024 bytes of a stream:
partition 0 filled to its 1024-byte capacity and fully consumed.  This
is the state reached from `freshMSS` by 1024 single-byte reads. -/
def c3S : MSS :=
  { buf := fun _ => 0, pos := 1024, endPos := 1024, curCapacity := 1024, partIdx := 0
    part0 := ⟨0, 1024, 1024⟩, part1 := ⟨0, 0, 1024⟩ }

/-- The source as seen from `c3S`: 1024 bytes already consumed, plenty
remaining. -/
def c3Ins : Inner :=
  { data := fun _ => 7, pos := 1024, script := [.bytes 100000]
    seekable := true, total := 0, reqs := [] }

/-- An already-exhausted source (every read returns 0). -/
def c6EmptyIns : Inner :=
  { data := fun _ => 7, pos := 0, script := [], seekable := true, total := 0, reqs := [] }

/-- A source holding exactly 2 bytes. -/
def c6WIns : Inner :=
  { data := fun _ => 7, pos := 0, script := [.bytes 2], seekable := true, total := 0, reqs := [] }

/-- A seekable source used by the C5 witness. -/
def c5WIns : Inner :=
  { data := fun _ => 7, pos := 0, script := [], seekable := true, total := 10, reqs := [] }

/-- A source holding exactly 3 bytes, used by the C8 witness. -/
def c8WIns : Inner :=
  { data := fun _ => 7, pos := 0, script := [.bytes 3], seekable := true, total := 0, reqs := [] }

/-- Witness run for C5: an absolute seek to 5 on a fresh stream. -/
def c5WRun : (Except IOErr Nat) × MSS × Inner := mssSeek freshMSS c5WIns (.start 5)

/-- Witness run for C6: a best-effort read of 5 bytes from a 2-byte
source. -/
def c6WRun : (Except IOErr (List Nat)) × MSS × Inner := mssRead freshMSS c6WIns 5

/-- Witness run for C8: an exact read of 5 bytes from a 3-byte source. -/
def c8WRun : (Except IOErr Unit) × Nat × MSS × Inner := readBufExact freshMSS c8WIns 5

/-! Helper lemmas. -/

theorem and_one_of_zero : (0 : Nat) &&& 1 = 0 := rfl

theorem and_one_of_one : (1 : Nat) &&& 1 = 1 := rfl

theorem xor_one_of_zero : (0 : Nat) ^^^ 1 = 1 := rfl

theorem xor_one_of_one : (1 : Nat) ^^^ 1 = 0 := rfl

theorem partAt_zero (s : MSS) : s.partAt 0 = s.part0 := rfl

theorem partAt_one (s : MSS) : s.partAt 1 = s.part1 := by
  simp [MSS.partAt]

/-- The slow-path loop body of the fixed-width reads is exactly
`read_byte`: the guards `pos >= end_pos` and `end_pos - pos < 1`
coincide, and both serve `buf[pos]` and advance by one. -/
theorem slowStep_eq_readByte (s : MSS) (ins : Inner) : slowStep s ins = readByte s ins := by
  unfold slowStep readByte
  by_cases h : s.endPos ≤ s.pos
  · rw [if_pos (show s.pos ≥ s.endPos from h), if_pos (show s.endPos - s.pos < 1 by omega)]
  · rw [if_neg (show ¬s.pos ≥ s.endPos by omega), if_neg (show ¬s.endPos - s.pos < 1 by omega)]

/-- The slow path of the fixed-width reads is `n` sequential
`read_byte` calls. -/
theorem slowRead_eq_readBytesSeq (n : Nat) :
    ∀ (s : MSS) (ins : Inner), slowRead n s ins = readBytesSeq n s ins := by
  induction n with
  | zero => intro s ins; rfl
  | succ n ih =>
      intro s ins
      unfold slowRead readBytesSeq
      rw [slowStep_eq_readByte]
      rcases hr : readByte s ins with ⟨r, s', ins'⟩
      cases r with
      | error e => rfl
      | ok b => simp only [ih]

/-- When at least `n` unread bytes are buffered, `n` sequential
`read_byte` calls never enter the refill engine: they return
`buf[pos..pos+n]` in order and advance `pos` by `n`. -/
theorem readBytesSeq_buffered (n : Nat) :
    ∀ (s : MSS) (ins : Inner), n ≤ s.endPos - s.pos →
      readBytesSeq n s ins
        = (.ok ((List.range n).map fun i => s.buf (s.pos + i)), { s with pos := s.pos + n }, ins) := by
  induction n with
  | zero => intro s ins _; rfl
  | succ n ih =>
      intro s ins h
      have h1 : ¬s.endPos - s.pos < 1 := by omega
      have h2 : n ≤ ({ s with pos := s.pos + 1 } : MSS).endPos - ({ s with pos := s.pos + 1 } : MSS).pos := by
        simp
        omega
      unfold readBytesSeq readByte
      rw [if_neg h1]
      simp only [ih _ ins h2]
      have hl : (List.range n).map (fun i => s.buf (s.pos + 1 + i))
          = (List.range n).map fun i => s.buf (s.pos + (i + 1)) :=
        List.map_congr_left fun a _ => by congr 1; omega
      have hp : s.pos + 1 + n = s.pos + (n + 1) := by omega
      simp only [List.range_succ_eq_map, List.map_cons, List.map_map, Function.comp_def, hl, hp,
        Nat.add_zero, Nat.succ_eq_add_one]

theorem innerRead_ok {ins : Inner} {a n : Nat} {ins' : Inner}
    (h : innerRead ins a = (.ok n, ins')) :
    n ≤ a ∧ ins'.script.length ≤ ins.script.length := by
  unfold innerRead at h
  rcases hs : ins.script with _ | ⟨e, rest⟩ <;> rw [hs] at h
  · simp only [Prod.mk.injEq, Except.ok.injEq] at h
    obtain ⟨rfl, rfl⟩ := h
    simp [hs]
  · cases e <;> simp only [Prod.mk.injEq, Except.ok.injEq, reduceCtorEq, false_and] at h
    obtain ⟨rfl, rfl⟩ := h
    exact ⟨by omega, by simp [hs]⟩

theorem innerRead_error {ins : Inner} {a : Nat} {e : IOErr} {ins' : Inner}
    (h : innerRead ins a = (.error e, ins')) :
    e ≠ .unexpectedEof ∧ ins'.script.length < ins.script.length := by
  unfold innerRead at h
  rcases hs : ins.script with _ | ⟨ev, rest⟩ <;> rw [hs] at h
  · simp at h
  · cases ev <;> simp only [Prod.mk.injEq, Except.error.injEq, reduceCtorEq, false_and] at h <;>
      obtain ⟨rfl, rfl⟩ := h <;> simp [hs]

theorem honest_tail {ins : Inner} {e : SrcEvent} {rest : List SrcEvent}
    (hH : honest ins) (hs : ins.script = e :: rest) (ins' : Inner)
    (h' : ins'.script = rest) : honest ins' := by
  intro x hx
  exact hH x (by rw [hs]; exact List.mem_cons_of_mem e (h' ▸ hx))

theorem innerRead_honest {ins : Inner} {a : Nat} {r : Except IOErr Nat} {ins' : Inner}
    (hH : honest ins) (h : innerRead ins a = (r, ins')) :
    honest ins' ∧ (∀ e, r ≠ .error e) ∧
    (∀ n, r = .ok n → (0 < a → n = 0 → ins.script = [])) ∧
    (ins.script = [] → ins'.script = []) := by
  unfold innerRead at h
  rcases hs : ins.script with _ | ⟨ev, rest⟩ <;> rw [hs] at h
  · simp only [Prod.mk.injEq] at h
    obtain ⟨rfl, rfl⟩ := h
    exact ⟨fun x hx => hH x (by simp_all), by simp, fun n hn _ _ => rfl, fun _ => by simp⟩
  · have hev := hH ev (by simp [hs])
    cases ev with
    | bytes k =>
        simp only [Prod.mk.injEq] at h
        obtain ⟨rfl, rfl⟩ := h
        refine ⟨honest_tail hH hs _ rfl, by simp, ?_, by simp [hs]⟩
        intro n hn ha hn0
        simp only [Except.ok.injEq] at hn
        simp only [eventOkB, decide_eq_true_eq] at hev
        omega
    | interrupted => simp [eventOkB] at hev
    | ioError c => simp [eventOkB] at hev

/-- Consuming `count` buffered bytes (advancing `pos` within the active
partition) preserves well-formedness and advances the absolute position
by `count`. -/
theorem consume_spec {s : MSS} (count : Nat) (hWF : WF s) (hc : count ≤ s.endPos - s.pos) :
    WF { s with pos := s.pos + count } ∧
    ({ s with pos := s.pos + count } : MSS).absPos = s.absPos + count := by
  obtain ⟨hIdx, hEnd, hPosLo, hPosHi, hLenC, hLenA, hCapC, hCapA, hCur0, hCurM, hOrd1, hOrd2⟩ := hWF
  rcases (by omega : s.partIdx = 0 ∨ s.partIdx = 1) with hidx | hidx <;>
    simp only [WF, MSS.absPos, hidx, and_one_of_zero, and_one_of_one, xor_one_of_zero,
      xor_one_of_one, partAt_zero, partAt_one, Nat.zero_mul, Nat.one_mul] at * <;>
    omega

theorem withPart_zero (s : MSS) (p : Partition) : s.withPart 0 p = { s with part0 := p } := rfl

theorem withPart_one (s : MSS) (p : Partition) : s.withPart 1 p = { s with part1 := p } := by
  simp [MSS.withPart]

/-- Effect of `fetch_buffer` on a well-formed state fed by an honest
source: it succeeds, preserves well-formedness and the absolute stream
position, consumes at most one script event, and returns an empty
readable slice only when the source script is exhausted. -/
theorem fetchBuffer_spec {s : MSS} {ins : Inner} {r : Except IOErr Unit} {s' : MSS} {ins' : Inner}
    (hWF : WF s) (hH : honest ins) (h : fetchBuffer s ins = (r, s', ins')) :
    r = .ok () ∧ WF s' ∧ s'.absPos = s.absPos ∧ honest ins' ∧
    ins'.script.length ≤ ins.script.length ∧
    (s'.endPos - s'.pos = 0 → ins'.script = []) := by
  obtain ⟨hIdx, hEnd, hPosLo, hPosHi, hLenC, hLenA, hCapC, hCapA, hCur0, hCurM, hOrd1, hOrd2⟩ := hWF
  have hMax : maxCapacity = 32768 := rfl
  by_cases hfull : s.pos ≥ s.endPos
  case neg =>
    unfold fetchBuffer at h
    rw [if_neg hfull] at h
    simp only [Prod.mk.injEq] at h
    obtain ⟨rfl, rfl, rfl⟩ := h
    exact ⟨rfl, ⟨hIdx, hEnd, hPosLo, hPosHi, hLenC, hLenA, hCapC, hCapA, hCur0, hCurM, hOrd1,
      hOrd2⟩, rfl, hH, le_refl _, fun h0 => absurd h0 (by omega)⟩
  case pos =>
    unfold fetchBuffer at h
    rw [if_pos hfull] at h
    rcases (by omega : s.partIdx = 0 ∨ s.partIdx = 1) with hidx | hidx <;>
      simp only [hidx, and_one_of_zero, and_one_of_one, xor_one_of_zero, xor_one_of_one,
        partAt_zero, partAt_one, Nat.zero_mul, Nat.one_mul] at h hEnd hPosLo hLenC hLenA hCapC hCapA hOrd1 hOrd2
    -- Active partition 0.
    · by_cases hcb : s.part0.basePos < s.part1.basePos
      · -- Catch-up after rewind: no I/O.
        rw [if_pos hcb] at h
        simp only [Prod.mk.injEq] at h
        obtain ⟨rfl, rfl, rfl⟩ := h
        refine ⟨rfl, ?_, ?_, hH, le_refl _, fun h0 => absurd h0 (by simp; omega)⟩
        · simp only [WF, MSS.absPos, hidx, and_one_of_one, xor_one_of_one, partAt_zero,
            partAt_one, Nat.one_mul, le_refl, true_and, and_true]
          omega
        · simp only [MSS.absPos, hidx, and_one_of_zero, and_one_of_one, partAt_zero, partAt_one]
          omega
      · rw [if_neg hcb] at h
        by_cases hpc : s.part0.len < s.part0.capacity
        · -- Fill in place up to the partition's capacity.
          rw [if_pos hpc] at h
          rcases hr : innerRead ins (s.part0.capacity - s.part0.len) with ⟨rr, insr⟩
          rw [hr] at h
          obtain ⟨hH1, hNoErr, hZero, hNil⟩ := innerRead_honest hH hr
          cases rr with
          | error e0 => exact absurd rfl (hNoErr e0)
          | ok n =>
              obtain ⟨hle, hlen⟩ := innerRead_ok hr
              simp only [withPart_zero, Prod.mk.injEq] at h
              obtain ⟨rfl, rfl, rfl⟩ := h
              refine ⟨rfl, ?_, ?_, hH1, hlen, ?_⟩
              · simp only [WF, hidx, and_one_of_zero, xor_one_of_zero, partAt_zero, partAt_one,
                  Nat.zero_mul, Nat.one_mul, le_refl, true_and, and_true, implies_true]
                omega
              · simp only [MSS.absPos, hidx, and_one_of_zero, partAt_zero]
                omega
              · intro h0
                simp only at h0
                exact hNil (hZero n rfl (by omega) (by omega))
        · -- Full fill: grow and swap.
          rw [if_neg hpc] at h
          rcases hr : innerRead ins (min (2 * s.curCapacity) maxCapacity) with ⟨rr, insr⟩
          rw [hr] at h
          obtain ⟨hH1, hNoErr, hZero, hNil⟩ := innerRead_honest hH hr
          cases rr with
          | error e0 => exact absurd rfl (hNoErr e0)
          | ok n =>
              obtain ⟨hle, hlen⟩ := innerRead_ok hr
              simp only [withPart_one, Prod.mk.injEq] at h
              obtain ⟨rfl, rfl, rfl⟩ := h
              refine ⟨rfl, ?_, ?_, hH1, hlen, ?_⟩
              · simp only [WF, hidx, and_one_of_one, xor_one_of_one, partAt_zero, partAt_one,
                  Nat.one_mul, le_refl, true_and, and_true, implies_true]
                omega
              · simp only [MSS.absPos, hidx, and_one_of_zero, and_one_of_one, partAt_zero,
                  partAt_one]
                omega
              · intro h0
                simp only at h0
                exact hNil (hZero n rfl (by omega) (by omega))
    -- Active partition 1 (symmetric).
    · by_cases hcb : s.part1.basePos < s.part0.basePos
      · rw [if_pos hcb] at h
        simp only [Prod.mk.injEq] at h
        obtain ⟨rfl, rfl, rfl⟩ := h
        refine ⟨rfl, ?_, ?_, hH, le_refl _, fun h0 => absurd h0 (by simp; omega)⟩
        · simp only [WF, MSS.absPos, hidx, and_one_of_zero, xor_one_of_zero, partAt_zero,
            partAt_one, Nat.zero_mul, le_refl, true_and, and_true]
          omega
        · simp only [MSS.absPos, hidx, and_one_of_zero, and_one_of_one, partAt_zero, partAt_one]
          omega
      · rw [if_neg hcb] at h
        by_cases hpc : s.part1.len < s.part1.capacity
        · rw [if_pos hpc] at h
          rcases hr : innerRead ins (s.part1.capacity - s.part1.len) with ⟨rr, insr⟩
          rw [hr] at h
          obtain ⟨hH1, hNoErr, hZero, hNil⟩ := innerRead_honest hH hr
          cases rr with
          | error e0 => exact absurd rfl (hNoErr e0)
          | ok n =>
              obtain ⟨hle, hlen⟩ := innerRead_ok hr
              simp only [withPart_one, Prod.mk.injEq] at h
              obtain ⟨rfl, rfl, rfl⟩ := h
              refine ⟨rfl, ?_, ?_, hH1, hlen, ?_⟩
              · simp only [WF, hidx, and_one_of_one, xor_one_of_one, partAt_zero, partAt_one,
                  Nat.one_mul, le_refl, true_and, and_true, implies_true]
                omega
              · simp only [MSS.absPos, hidx, and_one_of_one, partAt_one]
                omega
              · intro h0
                simp only at h0
                exact hNil (hZero n rfl (by omega) (by omega))
        · rw [if_neg hpc] at h
          rcases hr : innerRead ins (min (2 * s.curCapacity) maxCapacity) with ⟨rr, insr⟩
          rw [hr] at h
          obtain ⟨hH1, hNoErr, hZero, hNil⟩ := innerRead_honest hH hr
          cases rr with
          | error e0 => exact absurd rfl (hNoErr e0)
          | ok n =>
              obtain ⟨hle, hlen⟩ := innerRead_ok hr
              simp only [withPart_zero, Prod.mk.injEq] at h
              obtain ⟨rfl, rfl, rfl⟩ := h
              refine ⟨rfl, ?_, ?_, hH1, hlen, ?_⟩
              · simp only [WF, hidx, and_one_of_zero, xor_one_of_zero, partAt_zero, partAt_one,
                  Nat.zero_mul, Nat.one_mul, le_refl, true_and, and_true, implies_true]
                omega
              · simp only [MSS.absPos, hidx, and_one_of_zero, and_one_of_one, partAt_zero,
                  partAt_one]
                omega
              · intro h0
                simp only at h0
                exact hNil (hZero n rfl (by omega) (by omega))

/-- Invariant of the `read` copy loop under an honest source: it
succeeds, preserves well-formedness, transfers at most `rem` bytes,
advances the absolute position by exactly the number of bytes
transferred, and transfers fewer than `rem` bytes only when the source
script has been exhausted. -/
theorem readLoop_spec (fuel : Nat) :
    ∀ (s : MSS) (ins : Inner) (rem : Nat) {r : Except IOErr Unit} {out : List Nat}
      {s' : MSS} {ins' : Inner}, WF s → honest ins → rem ≤ fuel →
      readLoop fuel s ins rem = (r, out, s', ins') →
      r = .ok () ∧ WF s' ∧ honest ins' ∧ out.length ≤ rem ∧
      s'.absPos = s.absPos + out.length ∧ ins'.script.length ≤ ins.script.length ∧
      (out.length < rem → ins'.script = []) := by
  induction fuel with
  | zero =>
      intro s ins rem r out s' ins' hWF hH hrem h
      have hr0 : rem = 0 := by omega
      subst hr0
      simp only [readLoop, Prod.mk.injEq] at h
      obtain ⟨rfl, rfl, rfl, rfl⟩ := h
      exact ⟨rfl, hWF, hH, by simp, by simp, le_refl _, by simp⟩
  | succ fuel ih =>
      intro s ins rem r out s' ins' hWF hH hrem h
      by_cases hrem0 : rem = 0
      · subst hrem0
        simp only [readLoop, if_pos rfl, Prod.mk.injEq] at h
        obtain ⟨rfl, rfl, rfl, rfl⟩ := h
        exact ⟨rfl, hWF, hH, by simp, by simp, le_refl _, by simp⟩
      · simp only [readLoop] at h
        rw [if_neg hrem0] at h
        rcases hf : fetchBuffer s ins with ⟨rf, s1, ins1⟩
        rw [hf] at h
        obtain ⟨hok, hWF1, habs1, hH1, hlen1, hemp1⟩ := fetchBuffer_spec hWF hH hf
        subst hok
        simp only [Prod.mk.injEq] at h
        by_cases hc : min (s1.endPos - s1.pos) rem = 0
        · rw [if_pos hc] at h
          obtain ⟨rfl, rfl, rfl, rfl⟩ := h
          refine ⟨rfl, hWF1, hH1, by simp, by simpa using habs1, hlen1, ?_⟩
          exact fun _ => hemp1 (by omega)
        · rw [if_neg hc] at h
          rcases hrec : readLoop fuel { s1 with pos := s1.pos + min (s1.endPos - s1.pos) rem }
              ins1 (rem - min (s1.endPos - s1.pos) rem) with ⟨r2, rest, s2, ins2⟩
          rw [hrec] at h
          simp only [Prod.mk.injEq] at h
          obtain ⟨rfl, rfl, rfl, rfl⟩ := h
          obtain ⟨hcws, hcabs⟩ := consume_spec (min (s1.endPos - s1.pos) rem) hWF1 (by omega)
          obtain ⟨hr2, hWF2, hH2, hlen2, habs2, hsl2, hclause⟩ :=
            ih _ ins1 (rem - min (s1.endPos - s1.pos) rem) hcws hH1 (by omega) hrec
          subst hr2
          have hchunk : ((List.range (min (s1.endPos - s1.pos) rem)).map
              fun i => s1.buf (s1.pos + i)).length = min (s1.endPos - s1.pos) rem := by simp
          refine ⟨rfl, hWF2, hH2, ?_, ?_, by omega, ?_⟩
          · simp only [List.length_append, hchunk]
            omega
          · simp only [List.length_append, hchunk]
            omega
          · simp only [List.length_append, hchunk]
            intro hlt
            exact hclause (by omega)

/-- Behaviour of `read` (`read_best_effort`) on a well-formed state fed
by an honest source: either it returns the bytes transferred — a
nonempty list when at least one byte was requested, short of the
request only when the source script is exhausted — or nothing could be
transferred although at least one byte was requested, and it returns
the end-of-stream error with the absolute position unmoved. -/
theorem mssRead_spec {s : MSS} {ins : Inner} {n : Nat} {r : Except IOErr (List Nat)}
    {s' : MSS} {ins' : Inner} (hWF : WF s) (hH : honest ins)
    (h : mssRead s ins n = (r, s', ins')) :
    WF s' ∧ honest ins' ∧ ins'.script.length ≤ ins.script.length ∧
    s'.absPos = s.absPos + (okBytesOf r).length ∧
    (okBytesOf r).length ≤ n ∧
    ((okBytesOf r).length < n → ins'.script = []) ∧
    (r = .ok (okBytesOf r) ∧ (0 < n → okBytesOf r ≠ []) ∨
      r = .error .unexpectedEof ∧ okBytesOf r = [] ∧ 0 < n) := by
  unfold mssRead at h
  rcases hl : readLoop n s ins n with ⟨rl, out, s1, ins1⟩
  rw [hl] at h
  obtain ⟨hok, hWF1, hH1, houtlen, habs1, hsl1, hcl⟩ := readLoop_spec n s ins n hWF hH (le_refl n) hl
  subst hok
  simp only [Prod.mk.injEq] at h
  by_cases hz : out.length = 0 ∧ 0 < n
  · rw [if_pos hz] at h
    obtain ⟨rfl, rfl, rfl⟩ := h
    refine ⟨hWF1, hH1, hsl1, ?_, ?_, ?_, Or.inr ⟨rfl, rfl, hz.2⟩⟩
    · simp only [okBytesOf, List.length_nil]
      omega
    · simp [okBytesOf]
    · exact fun _ => hcl (by omega)
  · rw [if_neg hz] at h
    obtain ⟨rfl, rfl, rfl⟩ := h
    refine ⟨hWF1, hH1, hsl1, habs1, houtlen, hcl, Or.inl ⟨rfl, ?_⟩⟩
    intro hn0 hemp
    simp only [okBytesOf] at hemp
    exact hz ⟨by simp [hemp], hn0⟩

/-- Invariant of the `read_exact` retry loop under an honest source:
the final state's absolute position is exactly the initial one advanced
by the bytes delivered; the loop either fills the request completely
(`Ok`) or fails with end-of-stream having delivered strictly fewer
bytes, never rolling the cursor back. -/
theorem readExactLoop_spec (fuel : Nat) :
    ∀ (s : MSS) (ins : Inner) (rem k : Nat) {r : Except IOErr Unit} {k' : Nat}
      {s' : MSS} {ins' : Inner}, WF s → honest ins → rem < fuel →
      readExactLoop fuel s ins rem k = (r, k', s', ins') →
      WF s' ∧ honest ins' ∧ k ≤ k' ∧ k' - k ≤ rem ∧ s'.absPos = s.absPos + (k' - k) ∧
      (r = .ok () → k' - k = rem) ∧
      (r = .error .unexpectedEof ∨ r = .ok ()) ∧
      (r = .error .unexpectedEof → k' - k < rem) := by
  induction fuel with
  | zero =>
      intro s ins rem k r k' s' ins' hWF hH hrem h
      exact absurd hrem (by omega)
  | succ fuel ih =>
      intro s ins rem k r k' s' ins' hWF hH hrem h
      by_cases hrem0 : rem = 0
      · subst hrem0
        simp only [readExactLoop, if_pos rfl, Prod.mk.injEq] at h
        obtain ⟨rfl, rfl, rfl, rfl⟩ := h
        exact ⟨hWF, hH, le_refl _, by omega, by omega, fun _ => by omega, Or.inr rfl,
          fun he => Except.noConfusion he⟩
      · simp only [readExactLoop] at h
        rw [if_neg hrem0] at h
        rcases hm : mssRead s ins rem with ⟨rm, s1, ins1⟩
        rw [hm] at h
        obtain ⟨hWF1, hH1, hsl1, habs1, hlen1, hcl1, hdisj⟩ := mssRead_spec hWF hH hm
        rcases hdisj with ⟨hrm, hne⟩ | ⟨hrm, hemp, hn⟩
        · rw [hrm] at h
          simp only [Prod.mk.injEq] at h
          have hne0 : ¬(okBytesOf rm).length = 0 := by
            intro h0
            exact hne (by omega) (List.length_eq_zero.mp h0)
          rw [if_neg hne0] at h
          obtain ⟨hWF2, hH2, hk2, hkn2, habs2, hok2, hdisj2, heof2⟩ :=
            ih s1 ins1 (rem - (okBytesOf rm).length) (k + (okBytesOf rm).length) hWF1 hH1
              (by omega) h
          refine ⟨hWF2, hH2, by omega, by omega, by omega, ?_, hdisj2, ?_⟩
          · intro hr
            have := hok2 hr
            omega
          · intro hr
            have := heof2 hr
            omega
        · rw [hrm] at h
          simp only [Prod.mk.injEq] at h
          obtain ⟨rfl, rfl, rfl, rfl⟩ := h
          have h0 : (okBytesOf rm).length = 0 := by rw [hemp]; rfl
          refine ⟨hWF1, hH1, le_refl _, by omega, by omega, fun hr => Except.noConfusion hr,
            Or.inl rfl, fun _ => by omega⟩

/-- Closed form of the capacity growth sequence: it doubles from
INIT_CAPACITY until it reaches MAX_CAPACITY and then stays there. -/
theorem growthSeq_closed (i : Nat) : growthSeq i = min (initCapacity * 2 ^ i) maxCapacity := by
  induction i with
  | zero => decide
  | succ i ih =>
      have hM : maxCapacity = 32768 := rfl
      simp only [growthSeq, ih, pow_succ]
      have h2 : initCapacity * (2 ^ i * 2) = 2 * (initCapacity * 2 ^ i) := by ring
      rw [h2]
      omega

/-! Claim theorems. -/

/-- C1 (code_bug): the rewind round-trip law fails.  From a fresh stream
over a source of 7s: skip 924 bytes, read 200 bytes (all 7s, stream
offsets 924..1124), rewind 200 bytes (well within
`rewindable_bytes() = 1124`; the rewind reports success, 200), and
re-read 200 bytes.  The re-read returns one hundred 7s followed by one
hundred stale zero bytes instead of the two hundred 7s most recently
read, because the rewind into the interior of the previously active
partition sets `end_pos = pos + part.len`, which overstates the valid
region of that partition by the rewind target's offset within it. -/
theorem c1_rewind_roundtrip_code_bug :
    c1B.1 = .ok (List.replicate 200 7) ∧
    200 ≤ rewindableBytes c1B.2.1 ∧
    c1C.1 = 200 ∧
    c1D.1 = .ok (List.replicate 100 7 ++ List.replicate 100 0) ∧
    List.replicate 100 7 ++ List.replicate 100 0 ≠ List.replicate 200 7 :=
  ⟨rfl, by decide, rfl, rfl, by decide⟩

/-- C2 (code_bug): rewinding more than `pos()` is not a harmless no-op.
On a fresh stream (where `rewindable_bytes() = 0`), `rewind(1)`
computes `target_pos = self.pos() - rewind_len` on `u64`; the
subtraction underflows (a panic in debug builds).  With release-mode
wrap-around the guard `target_pos >= base_pos` misfires, the call
returns 1 instead of 0, and `pos` itself wraps to `2^64 - 1` instead of
staying unchanged. -/
theorem c2_rewind_overshoot_code_bug :
    rewindableBytes freshMSS = 0 ∧
    (rewind freshMSS 1).1 = 1 ∧
    freshMSS.pos = 0 ∧
    (rewind freshMSS 1).2.pos = 2 ^ 64 - 1 :=
  ⟨rfl, rfl, rfl, rfl⟩

/-- C3 (counterexample): the full-fill refill does not record the new
capacity on the alternate generation.  From the reachable state `c3S`
(partition 0 filled to its 1024-byte capacity and fully consumed,
`cur_capacity = 1024`), `fetch_buffer` requests
`min(2 * 1024, MAX) = 2048` bytes and stores 2048 as the new
`cur_capacity`, but records capacity 1024 — the old `cur_capacity` —
on the alternate generation, because `part[alt].capacity =
self.cur_capacity` runs before `self.cur_capacity = capacity`. -/
theorem c3_counterexample :
    (fetchBuffer c3S c3Ins).2.1.part1.capacity = 1024 ∧
    min (2 * c3S.curCapacity) maxCapacity = 2048 ∧
    (1024 : Nat) ≠ 2048 ∧
    (fetchBuffer c3S c3Ins).2.1.curCapacity = 2048 ∧
    (fetchBuffer c3S c3Ins).2.2.reqs = [2048] :=
  ⟨rfl, rfl, by decide, rfl, rfl⟩

/-- C4 (code_bug): an interrupted read surfaces to the caller.  With a
source whose first read attempt reports the transient interrupted
condition and whose second serves bytes, `read_byte` returns the
interrupted error — the `?` on `inner.read` inside `fetch_buffer`
propagates it; the `ErrorKind::Interrupted` retry arm in `read` guards
only the infallible slice copy and is dead code — while an immediate
second call succeeds, showing the condition was transient and a
transparent retry would have returned the byte. -/
theorem c4_interrupted_code_bug :
    (readByte freshMSS c4Ins).1 = .error .interrupted ∧
    (readByte (readByte freshMSS c4Ins).2.1 (readByte freshMSS c4Ins).2.2).1 = .ok 7 :=
  ⟨rfl, rfl⟩

/-- C10 (code_bug): a reachable state violates `end_pos ≤ 2 * MAX`.
After sequentially skipping 64513 bytes (running the refill engine
through its full doubling schedule) the stream holds 32768 bytes in
each partition; rewinding 32768 bytes — within `rewindable_bytes() =
32769` — lands one byte inside retained partition 1 and sets
`end_pos = 32769 + 32768 = 65537`, past the 65536-byte backing buffer.
Subsequent reads advance `pos` to 65536 and index `buf[65536]`,
an out-of-bounds access that panics in Rust. -/
theorem c10_in_bounds_code_bug :
    32768 ≤ rewindableBytes c10A.2.1 ∧
    c10B.1 = 32768 ∧
    c10B.2.endPos = 65537 ∧
    2 * maxCapacity = 65536 ∧
    2 * maxCapacity < c10B.2.endPos :=
  ⟨by decide, rfl, rfl, rfl, by decide⟩

/-- C6 (counterexample): at true end of source, a best-effort read of a
non-empty destination does not return `Ok(0)`: with an exhausted source
and a 1-byte destination, `read` returns the end-of-stream error
(`read == 0 && buf_len > 0` triggers `Err(UnexpectedEof)`), so
exhaustion is reported by an error here, not by the count. -/
theorem c6_counterexample :
    (mssRead freshMSS c6EmptyIns 1).1 = .error .unexpectedEof ∧
    (mssRead freshMSS c6EmptyIns 1).2.1.absPos = 0 :=
  ⟨rfl, rfl⟩

/-- C9 (confirmed): a zero-delta relative seek returns the current
absolute position and is a pure no-op: the stream state and the source
adapter (including its ghost request log) are returned unchanged, so no
source call is made. -/
theorem c9_zero_seek_noop (s : MSS) (ins : Inner) :
    mssSeek s ins (.current 0) = (.ok s.absPos, s, ins) := rfl

/-- C5 (confirmed): after a successful absolute seek to `P`, the stream
reports `pos() = P`, `buffered_bytes() = 0` and `rewindable_bytes() =
0`, both generations are reset to `{base_pos = P, len = 0, capacity =
INIT_CAPACITY}`, and `cur_capacity` is reset to `INIT_CAPACITY`. -/
theorem c5_seek_invalidation (s : MSS) (ins : Inner) (p : Nat)
    (r : Except IOErr Nat) (s' : MSS) (ins' : Inner)
    (hseek : ins.seekable = true)
    (h : mssSeek s ins (.start p) = (r, s', ins')) :
    r = .ok p ∧ s'.absPos = p ∧ bufferedBytes s' = 0 ∧ rewindableBytes s' = 0 ∧
    s'.part0 = ⟨p, 0, initCapacity⟩ ∧ s'.part1 = ⟨p, 0, initCapacity⟩ ∧
    s'.curCapacity = initCapacity ∧ s'.pos = 0 ∧ s'.endPos = 0 := by
  simp only [mssSeek, innerSeek, hseek, if_true, Prod.mk.injEq] at h
  obtain ⟨rfl, rfl, rfl⟩ := h
  refine ⟨rfl, ?_, ?_, ?_, rfl, rfl, rfl, rfl, rfl⟩
  · simp [invalidate, MSS.absPos, MSS.partAt]
  · simp [bufferedBytes, innerPosOf, invalidate, MSS.absPos, MSS.partAt]
  · simp [rewindableBytes, invalidate, MSS.absPos, MSS.partAt]

/-- C7 (confirmed): each fixed-width read (2, 3 and 4 bytes) returns the
same bytes in stream order, the same errors, and the same final state
as the corresponding number of sequential `read_byte` calls, in every
state: the fast path serves `n` contiguous buffered bytes exactly as
`n` refill-free single-byte reads would, and the slow path is literally
`n` single-byte reads, crossing generation boundaries through the
refill engine and raising end-of-stream when the source is exhausted. -/
theorem c7_fixed_read_equivalence (s : MSS) (ins : Inner) :
    readDoubleBytes s ins = readBytesSeq 2 s ins ∧
    readTripleBytes s ins = readBytesSeq 3 s ins ∧
    readQuadBytes s ins = readBytesSeq 4 s ins := by
  refine ⟨?_, ?_, ?_⟩
  · unfold readDoubleBytes
    by_cases h : 2 ≤ s.endPos - s.pos
    · rw [if_pos h, readBytesSeq_buffered 2 s ins h]
    · rw [if_neg h, slowRead_eq_readBytesSeq]
  · unfold readTripleBytes
    by_cases h : 3 ≤ s.endPos - s.pos
    · rw [if_pos h, readBytesSeq_buffered 3 s ins h]
    · rw [if_neg h, slowRead_eq_readBytesSeq]
  · unfold readQuadBytes
    by_cases h : 4 ≤ s.endPos - s.pos
    · rw [if_pos h, readBytesSeq_buffered 4 s ins h]
    · rw [if_neg h, slowRead_eq_readBytesSeq]

/-- C3 (amended): when the refill engine runs with the active generation
filled to capacity and fully consumed, it computes a new capacity
`min(cur_capacity * 2, MAX_CAPACITY)`, requests exactly that many bytes
from the source into the alternate half, sets the alternate's base to
`current.base_pos + current.len`, records the transferred length and
the PREVIOUS `cur_capacity` (the pre-doubling value, not the new
capacity) on the alternate generation, swaps the active index, and
updates `cur_capacity` to the new capacity; the successive
`cur_capacity` values over pure sequential reading double from
INIT_CAPACITY until MAX_CAPACITY and then stay at MAX_CAPACITY. -/
theorem c3_grow_swap_amended (s : MSS) (ins : Inner) (kk : Nat) (rest : List SrcEvent)
    (r : Except IOErr Unit) (s' : MSS) (ins' : Inner)
    (hIdx : s.partIdx ≤ 1)
    (hfull : s.endPos ≤ s.pos)
    (hbase : (s.partAt ((s.partIdx &&& 1) ^^^ 1)).basePos ≤ (s.partAt (s.partIdx &&& 1)).basePos)
    (hcap : (s.partAt (s.partIdx &&& 1)).capacity ≤ (s.partAt (s.partIdx &&& 1)).len)
    (hs : ins.script = .bytes kk :: rest)
    (h : fetchBuffer s ins = (r, s', ins')) :
    r = .ok () ∧
    s'.partAt ((s.partIdx &&& 1) ^^^ 1) =
      { basePos := (s.partAt (s.partIdx &&& 1)).basePos + (s.partAt (s.partIdx &&& 1)).len
        len := min kk (min (2 * s.curCapacity) maxCapacity)
        capacity := s.curCapacity } ∧
    s'.partAt (s.partIdx &&& 1) = s.partAt (s.partIdx &&& 1) ∧
    s'.partIdx = s.partIdx ^^^ 1 ∧
    s'.curCapacity = min (2 * s.curCapacity) maxCapacity ∧
    s'.pos = ((s.partIdx &&& 1) ^^^ 1) * maxCapacity ∧
    s'.endPos = ((s.partIdx &&& 1) ^^^ 1) * maxCapacity
      + min kk (min (2 * s.curCapacity) maxCapacity) ∧
    ins'.reqs = ins.reqs ++ [min (2 * s.curCapacity) maxCapacity] ∧
    ins'.pos = ins.pos + min kk (min (2 * s.curCapacity) maxCapacity) ∧
    ins'.script = rest ∧
    (∀ i, growthSeq i = min (initCapacity * 2 ^ i) maxCapacity) := by
  have hr : innerRead ins (min (2 * s.curCapacity) maxCapacity)
      = (.ok (min kk (min (2 * s.curCapacity) maxCapacity)),
          { ins with
              pos := ins.pos + min kk (min (2 * s.curCapacity) maxCapacity),
              script := rest,
              reqs := ins.reqs ++ [min (2 * s.curCapacity) maxCapacity] }) := by
    simp [innerRead, hs]
  unfold fetchBuffer at h
  rw [if_pos (show s.pos ≥ s.endPos from hfull)] at h
  rcases (by omega : s.partIdx = 0 ∨ s.partIdx = 1) with hidx | hidx <;>
    simp only [hidx, and_one_of_zero, and_one_of_one, xor_one_of_zero, xor_one_of_one,
      partAt_zero, partAt_one, Nat.zero_mul, Nat.one_mul] at h hbase hcap <;>
    rw [if_neg (not_lt.mpr hbase), if_neg (not_lt.mpr hcap), hr] at h <;>
    simp only [withPart_zero, withPart_one, Prod.mk.injEq] at h <;>
    obtain ⟨rfl, rfl, rfl⟩ := h <;>
    exact ⟨rfl, by simp [hidx, partAt_zero, partAt_one], by simp [hidx, partAt_zero, partAt_one],
      by simp [hidx], rfl, by simp [hidx], by simp [hidx], rfl, rfl, rfl, growthSeq_closed⟩

/-- C6 (amended): a best-effort bulk read pulls from the refill engine
until the destination is full or a refill yields zero bytes.  It
returns `Ok` with the bytes actually transferred when at least one byte
was transferred, and the count falls short of the request only at true
end of source (the source script is exhausted); but when the source is
exhausted before any byte could be transferred into a non-empty
destination it returns the end-of-stream error (leaving the position
unmoved) instead of `Ok(0)`. -/
theorem c6_read_best_effort_amended (s : MSS) (ins : Inner) (n : Nat)
    (r : Except IOErr (List Nat)) (s' : MSS) (ins' : Inner)
    (hWF : WF s) (hH : honest ins) (hn : 0 < n)
    (h : mssRead s ins n = (r, s', ins')) :
    (r = .ok (okBytesOf r) ∨ r = .error .unexpectedEof) ∧
    (r = .ok (okBytesOf r) →
      1 ≤ (okBytesOf r).length ∧ (okBytesOf r).length ≤ n ∧
      s'.absPos = s.absPos + (okBytesOf r).length ∧
      ((okBytesOf r).length < n → ins'.script = [])) ∧
    (r = .error .unexpectedEof → s'.absPos = s.absPos) := by
  obtain ⟨hWF1, hH1, hsl, habs, hlen, hcl, hdisj⟩ := mssRead_spec hWF hH h
  rcases hdisj with ⟨hrm, hne⟩ | ⟨hrm, hemp, _⟩
  · refine ⟨Or.inl hrm, fun _ => ⟨?_, hlen, habs, hcl⟩, fun hre => ?_⟩
    · have hpos := List.length_pos.mpr (hne hn)
      omega
    · rw [hrm] at hre
      exact Except.noConfusion hre
  · refine ⟨Or.inr hrm, fun hro => ?_, fun _ => ?_⟩
    · rw [hrm] at hro
      exact Except.noConfusion hro
    · have h0 : (okBytesOf r).length = 0 := by rw [hemp]; rfl
      omega

/-- C8 (confirmed): for every exact-length read over an honest source
from a well-formed state, the stream's absolute position ends exactly
`k` bytes past where it started, where `k` is the number of bytes
delivered; when the read fails with end-of-stream because the source
was exhausted after delivering `k < n` bytes, the cursor thus remains
advanced by exactly those `k` bytes — the operation does not roll the
state back. -/
theorem c8_no_rollback_on_eof (s : MSS) (ins : Inner) (n : Nat)
    (r : Except IOErr Unit) (k : Nat) (s' : MSS) (ins' : Inner)
    (hWF : WF s) (hH : honest ins)
    (h : readBufExact s ins n = (r, k, s', ins')) :
    s'.absPos = s.absPos + k ∧ k ≤ n ∧
    (r = .ok () → k = n) ∧
    (r = .error .unexpectedEof ∨ r = .ok ()) ∧
    (r = .error .unexpectedEof → k < n) := by
  obtain ⟨hWF', hH', hk, hkn, habs, hok, hdisj, heof⟩ :=
    readExactLoop_spec (n + ins.script.length + 1) s ins n 0 hWF hH (by omega) h
  refine ⟨by omega, by omega, fun hr => ?_, hdisj, fun hr => ?_⟩
  · have := hok hr
    omega
  · have := heof hr
    omega

/-! Witnesses. -/

/-- Witness for C3: the amended grow-and-swap postcondition evaluated at
the concrete reachable state `c3S` with its 1024 consumed bytes. -/
theorem c3_grow_swap_witness :
    (c3S.partIdx ≤ 1 ∧ c3S.endPos ≤ c3S.pos ∧
      (c3S.partAt ((c3S.partIdx &&& 1) ^^^ 1)).basePos ≤ (c3S.partAt (c3S.partIdx &&& 1)).basePos ∧
      (c3S.partAt (c3S.partIdx &&& 1)).capacity ≤ (c3S.partAt (c3S.partIdx &&& 1)).len ∧
      c3Ins.script = .bytes 100000 :: []) ∧
    (fetchBuffer c3S c3Ins).2.1.partAt ((c3S.partIdx &&& 1) ^^^ 1) =
      { basePos := (c3S.partAt (c3S.partIdx &&& 1)).basePos + (c3S.partAt (c3S.partIdx &&& 1)).len
        len := min 100000 (min (2 * c3S.curCapacity) maxCapacity)
        capacity := c3S.curCapacity } :=
  ⟨⟨by decide, by decide, by decide, by decide, rfl⟩,
    (c3_grow_swap_amended c3S c3Ins 100000 [] _ _ _ (by decide) (by decide) (by decide)
      (by decide) rfl rfl).2.1⟩

/-- Witness for C5: an absolute seek to 5 on a fresh stream with a
seekable source. -/
theorem c5_seek_invalidation_witness :
    c5WIns.seekable = true ∧
    (c5WRun.1 = .ok 5 ∧ c5WRun.2.1.absPos = 5 ∧ bufferedBytes c5WRun.2.1 = 0 ∧
      rewindableBytes c5WRun.2.1 = 0 ∧ c5WRun.2.1.part0 = ⟨5, 0, initCapacity⟩ ∧
      c5WRun.2.1.part1 = ⟨5, 0, initCapacity⟩ ∧ c5WRun.2.1.curCapacity = initCapacity ∧
      c5WRun.2.1.pos = 0 ∧ c5WRun.2.1.endPos = 0) :=
  ⟨rfl, c5_seek_invalidation freshMSS c5WIns 5 _ _ _ rfl rfl⟩

/-- Witness for C6: a best-effort read of 5 bytes from a fresh stream
over an honest 2-byte source returns `Ok` with the 2 bytes transferred
and an exhausted script. -/
theorem c6_read_best_effort_witness :
    (WF freshMSS ∧ honest c6WIns ∧ (0 : Nat) < 5) ∧
    ((c6WRun.1 = .ok (okBytesOf c6WRun.1) ∨ c6WRun.1 = .error .unexpectedEof) ∧
      (c6WRun.1 = .ok (okBytesOf c6WRun.1) →
        1 ≤ (okBytesOf c6WRun.1).length ∧ (okBytesOf c6WRun.1).length ≤ 5 ∧
        c6WRun.2.1.absPos = freshMSS.absPos + (okBytesOf c6WRun.1).length ∧
        ((okBytesOf c6WRun.1).length < 5 → c6WRun.2.2.script = [])) ∧
      (c6WRun.1 = .error .unexpectedEof → c6WRun.2.1.absPos = freshMSS.absPos)) :=
  ⟨⟨by decide, by decide, by decide⟩,
    c6_read_best_effort_amended freshMSS c6WIns 5 _ _ _ (by decide) (by decide) (by decide) rfl⟩

/-- Witness for C8: an exact read of 5 bytes from a fresh stream over an
honest 3-byte source fails with end-of-stream after delivering the 3
bytes, and the cursor stays advanced by exactly 3. -/
theorem c8_no_rollback_on_eof_witness :
    (WF freshMSS ∧ honest c8WIns) ∧
    (c8WRun.2.2.1.absPos = freshMSS.absPos + c8WRun.2.1 ∧ c8WRun.2.1 ≤ 5 ∧
      (c8WRun.1 = .ok () → c8WRun.2.1 = 5) ∧
      (c8WRun.1 = .error .unexpectedEof ∨ c8WRun.1 = .ok ()) ∧
      (c8WRun.1 = .error .unexpectedEof → c8WRun.2.1 < 5)) :=
  ⟨⟨by decide, by decide⟩,
    c8_no_rollback_on_eof freshMSS c8WIns 5 _ _ _ _ (by decide) (by decide) rfl⟩

end MediaSourceStreamModel
